import Mathlib

/-!
Verification of the photoZen model-fetching scripts.

The repository holds three Python scripts (`download_model.py`,
`github_search.py`, `search_model.py`), each a sequential loop that tries a
list of remote sources, checks the downloaded payload's byte size against a
threshold, and saves or discards it.  We embed each script shallowly:

* the network is a `world` function assigning each URL a retrieval outcome
  (an exception, or a payload of bytes);
* the filesystem is an association list from path strings to byte contents;
* each script's loop becomes a structurally recursive Lean function that
  returns the final success flag, the final filesystem, the list of URLs
  attempted (in order), and a trace of filesystem events.
-/

/-- Bytes of a downloaded payload, modelled as a list of byte values. -/
abbrev Bytes := List Nat

/-- The filesystem: an association list from path to file contents. -/
abbrev FS := List (String × Bytes)

/-- Look up the contents of a path. -/
def fsLookup (fs : FS) (p : String) : Option Bytes :=
  (fs.find? (fun e => e.1 == p)).map (fun e => e.2)

/-- `os.path.exists`. -/
def fsExists (fs : FS) (p : String) : Bool :=
  (fsLookup fs p).isSome

/-- `os.remove` (on the association-list model, removing a missing path is a
no-op; the scripts only remove paths they know exist). -/
def fsRemove (fs : FS) (p : String) : FS :=
  fs.filter (fun e => !(e.1 == p))

/-- `open(p, 'wb').write(c)`: (over)write a whole file. -/
def fsWrite (fs : FS) (p : String) (c : Bytes) : FS :=
  (p, c) :: fsRemove fs p

/-- Observable filesystem events emitted by a run. -/
inductive FsEv where
  | mkdirs (dir : String)
  | write (path : String) (content : Bytes)
  | move (src : String) (dst : String)
  | remove (path : String)
deriving Repr, DecidableEq

/-- Outcome of retrieving one URL for the scripts that treat every failure
through a single generic exception handler (`download_model.py`,
`search_model.py`): either some exception was raised, or the whole payload
was read. -/
inductive Outcome where
  | failure
  | payload (content : Bytes)
deriving Repr, DecidableEq

/-- Outcome of retrieving one URL in `github_search.py`, which distinguishes
HTTP errors (with their status code) from other exceptions. -/
inductive GsOutcome where
  | httpError (code : Nat)
  | otherError
  | payload (content : Bytes)
deriving Repr, DecidableEq

/-- Result of running one script: the boolean it returns, the final
filesystem, the URLs attempted in order, and the filesystem event trace. -/
structure RunResult where
  success : Bool
  fs : FS
  attempts : List String
  trace : List FsEv
deriving Repr, DecidableEq

/-! ## Embedding of `download_model.py`

The script sets `output_path`, creates its parent directories, and loops over
a hardcoded URL list.  Each iteration downloads to the fixed temporary path
`temp_model.tflite`, accepts the file when its size is strictly greater than
500000 bytes (moving it onto the destination and returning `True`), removes
it otherwise, and on any exception removes the temporary file if it exists
and continues.  After the loop it returns `False`. -/

def dmOutputPath : String := "app/src/main/assets/mobilefacenet.tflite"

def dmTempPath : String := "temp_model.tflite"

def dmUrls : List String :=
  [ "https://raw.githubusercontent.com/google-coral/test_data/master/mobilefacenet_edgetpu.tflite"
  , "https://raw.githubusercontent.com/google-coral/test_data/master/facenet_keras_tflite.tflite"
  , "https://github.com/ArnholdInstitute/Human_Face_Recognition/raw/main/models/facenet_keras.tflite"
  , "https://github.com/nicholasyan/FaceNet-Tensorflow/raw/master/facenet.tflite"
  , "https://storage.googleapis.com/tfhub-lite-models/google/lite-model/imagenet/mobilenet_v2_100_224/feature_vector/2/default/1.tflite" ]

/-- The `for url in urls:` loop of `download_model`. -/
def dmLoop (world : String → Outcome) : List String → FS → RunResult
  | [], fs => ⟨false, fs, [], []⟩
  | url :: rest, fs =>
    match world url with
    | Outcome.failure =>
      -- `except Exception: if os.path.exists('temp_model.tflite'): os.remove(...)`
      if fsExists fs dmTempPath then
        let r := dmLoop world rest (fsRemove fs dmTempPath)
        ⟨r.success, r.fs, url :: r.attempts, FsEv.remove dmTempPath :: r.trace⟩
      else
        let r := dmLoop world rest fs
        ⟨r.success, r.fs, url :: r.attempts, r.trace⟩
    | Outcome.payload c =>
      -- the payload is written whole to the temporary path, then sized
      if c.length > 500000 then
        -- `shutil.move(temp_path, output_path); return True`
        ⟨true,
         fsWrite (fsRemove (fsWrite fs dmTempPath c) dmTempPath) dmOutputPath c,
         [url],
         [FsEv.write dmTempPath c, FsEv.move dmTempPath dmOutputPath]⟩
      else
        -- `os.remove(temp_path)` and continue
        let r := dmLoop world rest (fsRemove (fsWrite fs dmTempPath c) dmTempPath)
        ⟨r.success, r.fs, url :: r.attempts,
         FsEv.write dmTempPath c :: FsEv.remove dmTempPath :: r.trace⟩

/-- `download_model()`: `os.makedirs(os.path.dirname(output_path), exist_ok=True)`
followed by the loop over the hardcoded URLs. -/
def download_model (world : String → Outcome) (fs : FS) : RunResult :=
  let r := dmLoop world dmUrls fs
  ⟨r.success, r.fs, r.attempts, FsEv.mkdirs "app/src/main/assets" :: r.trace⟩

/-- `sys.exit(0 if success else 1)` in the `__main__` block. -/
def dm_main (world : String → Outcome) (fs : FS) : Nat :=
  if (download_model world fs).success then 0 else 1

/-- Whether `download_model`'s acceptance test (`size > 500000`) accepts the
outcome that `world` gives for `url`. -/
def dmAccepted (world : String → Outcome) (url : String) : Bool :=
  match world url with
  | Outcome.failure => false
  | Outcome.payload c => 500000 < c.length

/-! ## Embedding of `github_search.py`

`search_and_download()` loops over `(owner, repo, path)` triples and, per
triple, over four raw-URL patterns; a success returns `True` out of both
loops, so behaviourally the run is a single loop over the flattened URL
list.  A retrieved payload smaller than 100 bytes is skipped; one strictly
larger than 500000 bytes is written directly to the destination (no
temporary file) and the function returns `True`; anything in between is
skipped.  An `HTTPError` with code 404 continues to the next URL; any other
error also just continues (distinct printing, and a rate-limit sleep which
has no filesystem or control-flow effect, aside). -/

def gsOutputPath : String := "app/src/main/assets/mobilefacenet.tflite"

def gsRepos : List (String × String × String) :=
  [ ("AkshayRaina02", "FaceRecognition-android", "app/src/main/assets/facenet.tflite")
  , ("nicholasyan", "FaceNet-Tensorflow-Lite", "app/src/main/assets/facenet.tflite")
  , ("nicholasyan", "FaceNet-Tensorflow-Lite", "facenet.tflite")
  , ("nickel-huang", "MobileFaceNet_Tutorial_Pytorch", "tflite_model/mobilefacenet.tflite")
  , ("syarahnamira", "FaceRecognitionCNN", "app/src/main/assets/mobile_face_net.tflite")
  , ("rohanpanda001", "face-recognition-android", "app/src/main/assets/mobile_face_net.tflite") ]

/-- The four URL patterns tried for one repository triple. -/
def gsUrlsFor (t : String × String × String) : List String :=
  [ "https://raw.githubusercontent.com/" ++ t.1 ++ "/" ++ t.2.1 ++ "/master/" ++ t.2.2
  , "https://raw.githubusercontent.com/" ++ t.1 ++ "/" ++ t.2.1 ++ "/main/" ++ t.2.2
  , "https://github.com/" ++ t.1 ++ "/" ++ t.2.1 ++ "/raw/master/" ++ t.2.2
  , "https://github.com/" ++ t.1 ++ "/" ++ t.2.1 ++ "/raw/main/" ++ t.2.2 ]

/-- The full flattened URL list tried by `search_and_download`. -/
def gsUrls : List String := gsRepos.flatMap gsUrlsFor

/-- The (flattened) URL loop of `search_and_download`. -/
def gsLoop (world : String → GsOutcome) : List String → FS → RunResult
  | [], fs => ⟨false, fs, [], []⟩
  | url :: rest, fs =>
    match world url with
    | GsOutcome.payload c =>
      if c.length < 100 then
        -- `continue`: too small to even consider
        let r := gsLoop world rest fs
        ⟨r.success, r.fs, url :: r.attempts, r.trace⟩
      else if c.length > 500000 then
        -- `with open(output_path, 'wb') as f: f.write(content); return True`
        ⟨true, fsWrite fs gsOutputPath c, [url], [FsEv.write gsOutputPath c]⟩
      else
        -- size printed, loop falls through to the next URL
        let r := gsLoop world rest fs
        ⟨r.success, r.fs, url :: r.attempts, r.trace⟩
    | GsOutcome.httpError _ =>
      -- 404 hits `continue`, other codes print and fall through: same control flow
      let r := gsLoop world rest fs
      ⟨r.success, r.fs, url :: r.attempts, r.trace⟩
    | GsOutcome.otherError =>
      let r := gsLoop world rest fs
      ⟨r.success, r.fs, url :: r.attempts, r.trace⟩

/-- `search_and_download()`: `os.makedirs` then the loop over all URLs. -/
def search_and_download (world : String → GsOutcome) (fs : FS) : RunResult :=
  let r := gsLoop world gsUrls fs
  ⟨r.success, r.fs, r.attempts, FsEv.mkdirs "app/src/main/assets" :: r.trace⟩

/-- `exit(0 if success else 1)` in the `__main__` block of `github_search.py`. -/
def gs_main (world : String → GsOutcome) (fs : FS) : Nat :=
  if (search_and_download world fs).success then 0 else 1

/-- Whether `search_and_download`'s size checks accept the outcome that
`world` gives for `url` (`len(content) >= 100` is implied by
`len(content) > 500000`). -/
def gsAccepted (world : String → GsOutcome) (url : String) : Bool :=
  match world url with
  | GsOutcome.payload c => 500000 < c.length
  | _ => false

/-! ## Embedding of `search_model.py`

This script runs at module level: it loops over three `(url, filename)`
pairs, writes each retrieved payload directly to
`app/src/main/assets/<filename>`, keeps it and sets `downloaded_any = True`
when its size is strictly greater than 50000 bytes, removes it otherwise,
and continues on any exception.  It does **not** stop after a success; at
the end it exits 0 when `downloaded_any` else 1. -/

def smAssetsDir : String := "app/src/main/assets"

def smModels : List (String × String) :=
  [ ("https://storage.googleapis.com/mediapipe-models/face_landmarker/face_landmarker/float16/1/face_landmarker.task",
     "face_landmarker.task")
  , ("https://storage.googleapis.com/mediapipe-models/face_detector/blaze_face_short_range/float16/1/blaze_face_short_range.tflite",
     "face_detector.tflite")
  , ("https://tfhub.dev/google/lite-model/imagenet/mobilenet_v2_100_224/feature_vector/2/default/1?lite-format=tflite",
     "mobilenet_v2_feature_vector.tflite") ]

/-- `os.path.join(assets_dir, filename)`. -/
def smOut (filename : String) : String := smAssetsDir ++ "/" ++ filename

/-- The `for url, filename in models:` loop of `search_model.py`, returning
the final `downloaded_any` as the success flag. -/
def smLoop (world : String → Outcome) : List (String × String) → FS → RunResult
  | [], fs => ⟨false, fs, [], []⟩
  | (url, name) :: rest, fs =>
    match world url with
    | Outcome.failure =>
      let r := smLoop world rest fs
      ⟨r.success, r.fs, url :: r.attempts, r.trace⟩
    | Outcome.payload c =>
      -- the payload is written whole to the output path, then sized
      if c.length > 50000 then
        -- `downloaded_any = True`, file kept, loop continues
        let r := smLoop world rest (fsWrite fs (smOut name) c)
        ⟨true, r.fs, url :: r.attempts, FsEv.write (smOut name) c :: r.trace⟩
      else
        -- `os.remove(output_path)`, loop continues
        let r := smLoop world rest (fsRemove (fsWrite fs (smOut name) c) (smOut name))
        ⟨r.success, r.fs, url :: r.attempts,
         FsEv.write (smOut name) c :: FsEv.remove (smOut name) :: r.trace⟩

/-- The whole module body of `search_model.py`: `os.makedirs(assets_dir)`
then the loop over the three models. -/
def search_model_run (world : String → Outcome) (fs : FS) : RunResult :=
  let r := smLoop world smModels fs
  ⟨r.success, r.fs, r.attempts, FsEv.mkdirs smAssetsDir :: r.trace⟩

/-- `exit(0)` when `downloaded_any` else `exit(1)` at the end of
`search_model.py`. -/
def sm_main (world : String → Outcome) (fs : FS) : Nat :=
  if (search_model_run world fs).success then 0 else 1

/-- Whether `search_model.py`'s acceptance test (`size > 50000`) accepts the
outcome that `world` gives for the model's URL. -/
def smAccepted (world : String → Outcome) (m : String × String) : Bool :=
  match world m.1 with
  | Outcome.failure => false
  | Outcome.payload c => 50000 < c.length

/-! ## Derived characterizations of the loops

These helper definitions describe, and the lemmas below prove, what each
embedded loop computes: the prefix of sources attempted, the returned flag,
and the final filesystem. -/

/-- The prefix of a list up to and including the first element satisfying
`p` (the whole list when no element does). -/
def takeThrough (p : α → Bool) : List α → List α
  | [] => []
  | a :: l => if p a then [a] else a :: takeThrough p l

/-- The payload of the first source of `urls` accepted by
`download_model`'s size check, when one exists. -/
def dmFirstPayload (world : String → Outcome) : List String → Option Bytes
  | [] => none
  | url :: rest =>
    match world url with
    | Outcome.failure => dmFirstPayload world rest
    | Outcome.payload c =>
      if 500000 < c.length then some c else dmFirstPayload world rest

/-- The payload of the first source of `urls` accepted by
`search_and_download`'s size checks, when one exists. -/
def gsFirstPayload (world : String → GsOutcome) : List String → Option Bytes
  | [] => none
  | url :: rest =>
    match world url with
    | GsOutcome.payload c =>
      if 500000 < c.length then some c else gsFirstPayload world rest
    | _ => gsFirstPayload world rest

/-- `tr` never writes directly to `dst`: under the event semantics the only
way a file can appear at `dst` is a move of an already fully written file,
so `dst` is never observable partially written. -/
def noDirectWrite (tr : List FsEv) (dst : String) : Bool :=
  tr.all (fun ev =>
    match ev with
    | FsEv.write p _ => !(p == dst)
    | _ => true)

/-- Whether the event makes a file appear at `dst`. -/
def createsAt (dst : String) : FsEv → Bool
  | FsEv.write p _ => p == dst
  | FsEv.move _ b => b == dst
  | _ => false

/-- How many events of `tr` make a file appear at `dst` (how often the
destination is finalized). -/
def countCreates (tr : List FsEv) (dst : String) : Nat :=
  tr.countP (createsAt dst)

/-! ## Concrete test worlds, used to instantiate the theorems below -/

/-- A payload one byte above the 500000-byte acceptance threshold. -/
def bigPayload : Bytes := List.replicate 500001 0

/-- A three-byte payload, below every threshold. -/
def tinyPayload : Bytes := [0, 1, 2]

/-- Test world in which every retrieval raises an exception. -/
def cwFail : String → Outcome := fun _ => Outcome.failure

/-- Test world in which every retrieval yields `bigPayload`. -/
def cwBig : String → Outcome := fun _ => Outcome.payload bigPayload

/-- Test world in which every retrieval yields `tinyPayload`. -/
def cwTiny : String → Outcome := fun _ => Outcome.payload tinyPayload

/-- Test world in which only the URL `"b"` yields `bigPayload` and every
other retrieval raises. -/
def cwSecond : String → Outcome := fun u =>
  if u == "b" then Outcome.payload bigPayload else Outcome.failure

/-- Test world for `github_search` in which every retrieval yields 404. -/
def cg404 : String → GsOutcome := fun _ => GsOutcome.httpError 404

/-- Test world for `github_search` in which every retrieval raises a
non-HTTP exception. -/
def cgOther : String → GsOutcome := fun _ => GsOutcome.otherError

/-- Test world for `github_search` in which every retrieval yields
`bigPayload`. -/
def cgBig : String → GsOutcome := fun _ => GsOutcome.payload bigPayload

/-- Test world for `github_search` in which every retrieval yields
`tinyPayload`. -/
def cgTiny : String → GsOutcome := fun _ => GsOutcome.payload tinyPayload

/-- Whether a `github_search` retrieval outcome is a failure (an HTTP error
of any status, or any other exception) rather than a retrieved payload. -/
def gsFails : GsOutcome → Bool
  | GsOutcome.payload _ => false
  | _ => true

/-- Whether a filesystem event is an atomic move. -/
def isMove : FsEv → Bool
  | FsEv.move _ _ => true
  | _ => false

/-! ## Lemmas and verified properties -/

/-! ## Basic filesystem lemmas -/

theorem fsLookup_nil (p : String) : fsLookup [] p = none := rfl

theorem fsLookup_cons (e : String × Bytes) (fs : FS) (p : String) :
    fsLookup (e :: fs) p =
      if e.1 == p then some e.2 else fsLookup fs p := by
  by_cases h : e.1 == p <;> simp [fsLookup, List.find?, h]

theorem fsRemove_cons (e : String × Bytes) (fs : FS) (p : String) :
    fsRemove (e :: fs) p =
      if e.1 == p then fsRemove fs p else e :: fsRemove fs p := by
  by_cases h : e.1 == p <;> simp [fsRemove, List.filter, h]

theorem fsLookup_fsRemove_self (fs : FS) (p : String) :
    fsLookup (fsRemove fs p) p = none := by
  induction fs with
  | nil => rfl
  | cons e fs ih =>
    rw [fsRemove_cons]
    by_cases h : e.1 == p
    · simp [h, ih]
    · rw [if_neg h, fsLookup_cons, if_neg h]
      exact ih

theorem fsLookup_fsRemove_ne (fs : FS) (p q : String) (h : q ≠ p) :
    fsLookup (fsRemove fs p) q = fsLookup fs q := by
  induction fs with
  | nil => rfl
  | cons e fs ih =>
    rw [fsRemove_cons, fsLookup_cons]
    by_cases he : e.1 == p
    · have : (e.1 == q) = false := by
        have h1 : e.1 = p := by simpa using he
        simpa [h1] using beq_eq_false_iff_ne.2 (fun hq => h hq.symm)
      rw [if_pos he, ih, this]
      simp
    · rw [if_neg he, fsLookup_cons]
      by_cases hq : e.1 == q
      · simp [hq]
      · simp [hq, ih]

theorem fsLookup_fsWrite_self (fs : FS) (p : String) (c : Bytes) :
    fsLookup (fsWrite fs p c) p = some c := by
  simp [fsWrite, fsLookup_cons]

theorem fsLookup_fsWrite_ne (fs : FS) (p q : String) (c : Bytes) (h : q ≠ p) :
    fsLookup (fsWrite fs p c) q = fsLookup fs q := by
  rw [fsWrite, fsLookup_cons]
  have : (p == q) = false := beq_eq_false_iff_ne.2 (fun hq => h hq.symm)
  rw [this]
  simp only [Bool.false_eq_true, if_false]
  exact fsLookup_fsRemove_ne fs p q h

theorem fsRemove_of_not_exists (fs : FS) (p : String)
    (h : fsExists fs p = false) : fsRemove fs p = fs := by
  induction fs with
  | nil => rfl
  | cons e fs ih =>
    rw [fsRemove_cons]
    by_cases he : e.1 == p
    · exfalso
      rw [fsExists, fsLookup_cons, if_pos he] at h
      simp at h
    · rw [if_neg he]
      congr 1
      apply ih
      rwa [fsExists, fsLookup_cons, if_neg he] at h

theorem fsExists_fsWrite_self (fs : FS) (p : String) (c : Bytes) :
    fsExists (fsWrite fs p c) p = true := by
  simp [fsExists, fsLookup_fsWrite_self]

theorem fsExists_fsRemove_self (fs : FS) (p : String) :
    fsExists (fsRemove fs p) p = false := by
  simp [fsExists, fsLookup_fsRemove_self]

theorem fsExists_fsWrite_ne (fs : FS) (p q : String) (c : Bytes) (h : q ≠ p) :
    fsExists (fsWrite fs p c) q = fsExists fs q := by
  simp [fsExists, fsLookup_fsWrite_ne fs p q c h]

theorem fsExists_fsRemove_ne (fs : FS) (p q : String) (h : q ≠ p) :
    fsExists (fsRemove fs p) q = fsExists fs q := by
  simp [fsExists, fsLookup_fsRemove_ne fs p q h]

theorem takeThrough_is_take_prefix (p : α → Bool) (l : List α) :
    ∃ k, takeThrough p l = l.take k := by
  induction l with
  | nil => exact ⟨0, rfl⟩
  | cons a l ih =>
    by_cases h : p a
    · exact ⟨1, by simp [takeThrough, h]⟩
    · obtain ⟨k, hk⟩ := ih
      exact ⟨k + 1, by simp [takeThrough, h, hk]⟩

theorem takeThrough_eq_take_of_first (p : α → Bool) (l : List α) (i : Nat)
    (h : i < l.length)
    (hfirst : ∀ j (hj : j < i), p (l.get ⟨j, Nat.lt_trans hj h⟩) = false)
    (hacc : p (l.get ⟨i, h⟩) = true) :
    takeThrough p l = l.take (i + 1) := by
  induction l generalizing i with
  | nil => exact absurd h (Nat.not_lt_zero i)
  | cons a l ih =>
    cases i with
    | zero =>
      simp only [List.get] at hacc
      simp [takeThrough, hacc]
    | succ i =>
      have ha : p a = false := hfirst 0 (Nat.succ_pos i)
      simp only [takeThrough, ha, Bool.false_eq_true, if_false, List.take]
      congr 1
      exact ih i (Nat.lt_of_succ_lt_succ h)
        (fun j hj => hfirst (j + 1) (Nat.succ_lt_succ hj)) hacc

theorem dmLoop_success (world : String → Outcome) (urls : List String) (fs : FS) :
    (dmLoop world urls fs).success = urls.any (dmAccepted world) := by
  induction urls generalizing fs with
  | nil => simp [dmLoop]
  | cons url rest ih =>
    simp only [List.any_cons]
    rcases hw : world url with _ | c
    · simp only [dmLoop, hw]
      by_cases he : fsExists fs dmTempPath <;>
        simp [he, ih, dmAccepted, hw]
    · by_cases hc : 500000 < c.length
      · simp [dmLoop, hw, hc, dmAccepted]
      · simp only [dmLoop, hw]
        rw [if_neg (by omega)]
        simp [ih, dmAccepted, hw, hc]

theorem dmLoop_attempts (world : String → Outcome) (urls : List String) (fs : FS) :
    (dmLoop world urls fs).attempts = takeThrough (dmAccepted world) urls := by
  induction urls generalizing fs with
  | nil => rfl
  | cons url rest ih =>
    rcases hw : world url with _ | c
    · have ha : dmAccepted world url = false := by simp [dmAccepted, hw]
      simp only [dmLoop, hw, takeThrough, ha, Bool.false_eq_true, if_false]
      by_cases he : fsExists fs dmTempPath <;> simp [he, ih]
    · by_cases hc : 500000 < c.length
      · have ha : dmAccepted world url = true := by simp [dmAccepted, hw, hc]
        simp [dmLoop, hw, hc, takeThrough, ha]
      · have ha : dmAccepted world url = false := by
          simp [dmAccepted, hw]; omega
        simp only [dmLoop, hw, takeThrough, ha, Bool.false_eq_true, if_false]
        rw [if_neg (by omega)]
        simp [ih]

theorem dmLoop_fs (world : String → Outcome) (urls : List String) (fs : FS)
    (hclean : fsExists fs dmTempPath = false) :
    (dmLoop world urls fs).fs =
      match dmFirstPayload world urls with
      | some c => fsWrite fs dmOutputPath c
      | none => fs := by
  induction urls generalizing fs with
  | nil => rfl
  | cons url rest ih =>
    have hwr : ∀ c : Bytes, fsRemove (fsWrite fs dmTempPath c) dmTempPath = fs := by
      intro c
      rw [fsWrite, fsRemove_cons]
      simp only [beq_self_eq_true, if_true]
      rw [fsRemove_of_not_exists _ _ (by rw [fsExists_fsRemove_self])]
      exact fsRemove_of_not_exists fs dmTempPath hclean
    rcases hw : world url with _ | c
    · simp only [dmLoop, hw, hclean, Bool.false_eq_true, if_false]
      simp only [dmFirstPayload, hw]
      exact ih fs hclean
    · by_cases hc : 500000 < c.length
      · simp only [dmLoop, hw, dmFirstPayload]
        rw [if_pos (by omega), if_pos hc]
        rw [hwr]
      · simp only [dmLoop, hw, dmFirstPayload]
        rw [if_neg (by omega), if_neg hc]
        simp only []
        rw [hwr]
        exact ih fs hclean

theorem gsLoop_success (world : String → GsOutcome) (urls : List String) (fs : FS) :
    (gsLoop world urls fs).success = urls.any (gsAccepted world) := by
  induction urls generalizing fs with
  | nil => simp [gsLoop]
  | cons url rest ih =>
    simp only [List.any_cons]
    rcases hw : world url with code | _ | c
    · simp [gsLoop, hw, ih, gsAccepted]
    · simp [gsLoop, hw, ih, gsAccepted]
    · by_cases h1 : c.length < 100
      · have ha : gsAccepted world url = false := by
          simp [gsAccepted, hw]; omega
        simp only [gsLoop, hw]
        rw [if_pos h1]
        simp [ih, ha]
      · by_cases h2 : 500000 < c.length
        · have ha : gsAccepted world url = true := by simp [gsAccepted, hw, h2]
          simp only [gsLoop, hw]
          rw [if_neg h1, if_pos (by omega)]
          simp [ha]
        · have ha : gsAccepted world url = false := by
            simp [gsAccepted, hw]; omega
          simp only [gsLoop, hw]
          rw [if_neg h1, if_neg (by omega)]
          simp [ih, ha]

theorem gsLoop_attempts (world : String → GsOutcome) (urls : List String) (fs : FS) :
    (gsLoop world urls fs).attempts = takeThrough (gsAccepted world) urls := by
  induction urls generalizing fs with
  | nil => rfl
  | cons url rest ih =>
    rcases hw : world url with code | _ | c
    · have ha : gsAccepted world url = false := by simp [gsAccepted, hw]
      simp only [gsLoop, hw, takeThrough, ha, Bool.false_eq_true, if_false]
      simp [ih]
    · have ha : gsAccepted world url = false := by simp [gsAccepted, hw]
      simp only [gsLoop, hw, takeThrough, ha, Bool.false_eq_true, if_false]
      simp [ih]
    · by_cases h1 : c.length < 100
      · have ha : gsAccepted world url = false := by
          simp [gsAccepted, hw]; omega
        simp only [gsLoop, hw, takeThrough, ha, Bool.false_eq_true, if_false]
        rw [if_pos h1]
        simp [ih]
      · by_cases h2 : 500000 < c.length
        · have ha : gsAccepted world url = true := by simp [gsAccepted, hw, h2]
          simp only [gsLoop, hw, takeThrough, ha, if_true]
          rw [if_neg h1, if_pos (by omega)]
        · have ha : gsAccepted world url = false := by
            simp [gsAccepted, hw]; omega
          simp only [gsLoop, hw, takeThrough, ha, Bool.false_eq_true, if_false]
          rw [if_neg h1, if_neg (by omega)]
          simp [ih]

theorem gsLoop_fs (world : String → GsOutcome) (urls : List String) (fs : FS) :
    (gsLoop world urls fs).fs =
      match gsFirstPayload world urls with
      | some c => fsWrite fs gsOutputPath c
      | none => fs := by
  induction urls generalizing fs with
  | nil => rfl
  | cons url rest ih =>
    rcases hw : world url with code | _ | c
    · simp only [gsLoop, hw, gsFirstPayload]
      exact ih fs
    · simp only [gsLoop, hw, gsFirstPayload]
      exact ih fs
    · by_cases h1 : c.length < 100
      · simp only [gsLoop, hw, gsFirstPayload]
        rw [if_pos h1, if_neg (by omega)]
        exact ih fs
      · by_cases h2 : 500000 < c.length
        · simp only [gsLoop, hw, gsFirstPayload]
          rw [if_neg h1, if_pos (by omega), if_pos h2]
        · simp only [gsLoop, hw, gsFirstPayload]
          rw [if_neg h1, if_neg (by omega), if_neg h2]
          exact ih fs

theorem gsLoop_trace (world : String → GsOutcome) (urls : List String) (fs : FS) :
    (gsLoop world urls fs).trace =
      match gsFirstPayload world urls with
      | some c => [FsEv.write gsOutputPath c]
      | none => [] := by
  induction urls generalizing fs with
  | nil => rfl
  | cons url rest ih =>
    rcases hw : world url with code | _ | c
    · simp only [gsLoop, hw, gsFirstPayload]
      exact ih fs
    · simp only [gsLoop, hw, gsFirstPayload]
      exact ih fs
    · by_cases h1 : c.length < 100
      · simp only [gsLoop, hw, gsFirstPayload]
        rw [if_pos h1, if_neg (by omega)]
        exact ih fs
      · by_cases h2 : 500000 < c.length
        · simp only [gsLoop, hw, gsFirstPayload]
          rw [if_neg h1, if_pos (by omega), if_pos h2]
        · simp only [gsLoop, hw, gsFirstPayload]
          rw [if_neg h1, if_neg (by omega), if_neg h2]
          exact ih fs

theorem smLoop_success (world : String → Outcome)
    (models : List (String × String)) (fs : FS) :
    (smLoop world models fs).success = models.any (smAccepted world) := by
  induction models generalizing fs with
  | nil => simp [smLoop]
  | cons m rest ih =>
    obtain ⟨url, name⟩ := m
    simp only [List.any_cons]
    rcases hw : world url with _ | c
    · simp [smLoop, hw, ih, smAccepted]
    · by_cases hc : 50000 < c.length
      · have ha : smAccepted world (url, name) = true := by
          simp [smAccepted, hw, hc]
        simp only [smLoop, hw]
        rw [if_pos (by omega)]
        simp [ha]
      · have ha : smAccepted world (url, name) = false := by
          simp [smAccepted, hw]; omega
        simp only [smLoop, hw]
        rw [if_neg (by omega)]
        simp [ih, ha]

theorem smLoop_attempts (world : String → Outcome)
    (models : List (String × String)) (fs : FS) :
    (smLoop world models fs).attempts = models.map Prod.fst := by
  induction models generalizing fs with
  | nil => rfl
  | cons m rest ih =>
    obtain ⟨url, name⟩ := m
    rcases hw : world url with _ | c
    · simp [smLoop, hw, ih]
    · by_cases hc : 50000 < c.length
      · simp only [smLoop, hw]
        rw [if_pos (by omega)]
        simp [ih]
      · simp only [smLoop, hw]
        rw [if_neg (by omega)]
        simp [ih]


theorem dmFirstPayload_eq_none (world : String → Outcome) (urls : List String)
    (h : ∀ u ∈ urls, dmAccepted world u = false) :
    dmFirstPayload world urls = none := by
  induction urls with
  | nil => rfl
  | cons url rest ih =>
    have ha := h url (List.mem_cons_self url rest)
    rcases hw : world url with _ | c
    · simp only [dmFirstPayload, hw]
      exact ih (fun u hu => h u (List.mem_cons_of_mem url hu))
    · simp only [dmFirstPayload, hw]
      rw [dmAccepted, hw] at ha
      rw [if_neg (by simpa using ha)]
      exact ih (fun u hu => h u (List.mem_cons_of_mem url hu))

theorem dmFirstPayload_of_any (world : String → Outcome) (urls : List String)
    (h : ∃ u ∈ urls, dmAccepted world u = true) :
    ∃ c, dmFirstPayload world urls = some c ∧ 500000 < c.length ∧
      ∃ u ∈ urls, world u = Outcome.payload c := by
  induction urls with
  | nil => obtain ⟨u, hu, _⟩ := h; exact absurd hu (List.not_mem_nil u)
  | cons url rest ih =>
    rcases hw : world url with _ | c
    · have hrest : ∃ u ∈ rest, dmAccepted world u = true := by
        obtain ⟨u, hu, hacc⟩ := h
        rcases List.mem_cons.1 hu with rfl | hu
        · rw [dmAccepted, hw] at hacc; exact absurd hacc (by simp)
        · exact ⟨u, hu, hacc⟩
      obtain ⟨c, hc1, hc2, u, hu, hu2⟩ := ih hrest
      exact ⟨c, by simpa [dmFirstPayload, hw] using hc1, hc2,
        u, List.mem_cons_of_mem url hu, hu2⟩
    · by_cases hlen : 500000 < c.length
      · refine ⟨c, ?_, hlen, url, List.mem_cons_self url rest, hw⟩
        simp only [dmFirstPayload, hw]
        rw [if_pos hlen]
      · have hrest : ∃ u ∈ rest, dmAccepted world u = true := by
          obtain ⟨u, hu, hacc⟩ := h
          rcases List.mem_cons.1 hu with rfl | hu
          · rw [dmAccepted, hw] at hacc
            exact absurd hacc (by simpa using hlen)
          · exact ⟨u, hu, hacc⟩
        obtain ⟨c', hc1, hc2, u, hu, hu2⟩ := ih hrest
        refine ⟨c', ?_, hc2, u, List.mem_cons_of_mem url hu, hu2⟩
        simp only [dmFirstPayload, hw]
        rwa [if_neg hlen]

theorem gsFirstPayload_eq_none (world : String → GsOutcome) (urls : List String)
    (h : ∀ u ∈ urls, gsAccepted world u = false) :
    gsFirstPayload world urls = none := by
  induction urls with
  | nil => rfl
  | cons url rest ih =>
    have ha := h url (List.mem_cons_self url rest)
    have hrest := ih (fun u hu => h u (List.mem_cons_of_mem url hu))
    rcases hw : world url with code | _ | c
    · simpa only [gsFirstPayload, hw] using hrest
    · simpa only [gsFirstPayload, hw] using hrest
    · simp only [gsFirstPayload, hw]
      rw [gsAccepted, hw] at ha
      rw [if_neg (by simpa using ha)]
      exact hrest

theorem gsFirstPayload_of_any (world : String → GsOutcome) (urls : List String)
    (h : ∃ u ∈ urls, gsAccepted world u = true) :
    ∃ c, gsFirstPayload world urls = some c ∧ 500000 < c.length ∧
      ∃ u ∈ urls, world u = GsOutcome.payload c := by
  induction urls with
  | nil => obtain ⟨u, hu, _⟩ := h; exact absurd hu (List.not_mem_nil u)
  | cons url rest ih =>
    have hstep : (∃ u ∈ rest, gsAccepted world u = true) →
        ∃ c, gsFirstPayload world rest = some c ∧ 500000 < c.length ∧
          ∃ u ∈ url :: rest, world u = GsOutcome.payload c := by
      intro hrest
      obtain ⟨c, hc1, hc2, u, hu, hu2⟩ := ih hrest
      exact ⟨c, hc1, hc2, u, List.mem_cons_of_mem url hu, hu2⟩
    rcases hw : world url with code | _ | c
    · have hrest : ∃ u ∈ rest, gsAccepted world u = true := by
        obtain ⟨u, hu, hacc⟩ := h
        rcases List.mem_cons.1 hu with rfl | hu
        · rw [gsAccepted, hw] at hacc; exact absurd hacc (by simp)
        · exact ⟨u, hu, hacc⟩
      obtain ⟨c, hc1, hc2, hmem⟩ := hstep hrest
      exact ⟨c, by simpa [gsFirstPayload, hw] using hc1, hc2, hmem⟩
    · have hrest : ∃ u ∈ rest, gsAccepted world u = true := by
        obtain ⟨u, hu, hacc⟩ := h
        rcases List.mem_cons.1 hu with rfl | hu
        · rw [gsAccepted, hw] at hacc; exact absurd hacc (by simp)
        · exact ⟨u, hu, hacc⟩
      obtain ⟨c, hc1, hc2, hmem⟩ := hstep hrest
      exact ⟨c, by simpa [gsFirstPayload, hw] using hc1, hc2, hmem⟩
    · by_cases hlen : 500000 < c.length
      · refine ⟨c, ?_, hlen, url, List.mem_cons_self url rest, hw⟩
        simp only [gsFirstPayload, hw]
        rw [if_pos hlen]
      · have hrest : ∃ u ∈ rest, gsAccepted world u = true := by
          obtain ⟨u, hu, hacc⟩ := h
          rcases List.mem_cons.1 hu with rfl | hu
          · rw [gsAccepted, hw] at hacc
            exact absurd hacc (by simpa using hlen)
          · exact ⟨u, hu, hacc⟩
        obtain ⟨c', hc1, hc2, hmem⟩ := hstep hrest
        refine ⟨c', ?_, hc2, hmem⟩
        simp only [gsFirstPayload, hw]
        rwa [if_neg hlen]

theorem dmLoop_noDirectWrite (world : String → Outcome) (urls : List String)
    (fs : FS) :
    noDirectWrite (dmLoop world urls fs).trace dmOutputPath = true := by
  induction urls generalizing fs with
  | nil => rfl
  | cons url rest ih =>
    rcases hw : world url with _ | c
    · simp only [dmLoop, hw]
      by_cases he : fsExists fs dmTempPath
      · simp only [he, if_true]
        simpa [noDirectWrite] using ih (fsRemove fs dmTempPath)
      · simp only [he, if_false]
        exact ih fs
    · by_cases hc : 500000 < c.length
      · simp only [dmLoop, hw]
        rw [if_pos (by omega)]
        simp [noDirectWrite]
        decide
      · simp only [dmLoop, hw]
        rw [if_neg (by omega)]
        have := ih (fsRemove (fsWrite fs dmTempPath c) dmTempPath)
        simp only [noDirectWrite, List.all_cons] at this ⊢
        simp [this]
        decide

theorem dmLoop_countCreates (world : String → Outcome) (urls : List String)
    (fs : FS) :
    countCreates (dmLoop world urls fs).trace dmOutputPath =
      (if (dmLoop world urls fs).success then 1 else 0) := by
  induction urls generalizing fs with
  | nil => rfl
  | cons url rest ih =>
    rcases hw : world url with _ | c
    · simp only [dmLoop, hw]
      by_cases he : fsExists fs dmTempPath
      · simp only [he, if_true]
        have := ih (fsRemove fs dmTempPath)
        simp only [countCreates, List.countP_cons] at this ⊢
        simp only [createsAt]
        rw [this]
        have hne : (dmTempPath == dmOutputPath) = false := by decide
        simp [hne]
      · simp only [he, if_false]
        exact ih fs
    · by_cases hc : 500000 < c.length
      · simp only [dmLoop, hw]
        rw [if_pos (by omega)]
        simp only [countCreates, List.countP_cons, List.countP_nil, createsAt]
        have hne : (dmTempPath == dmOutputPath) = false := by decide
        simp [hne]
      · simp only [dmLoop, hw]
        rw [if_neg (by omega)]
        have := ih (fsRemove (fsWrite fs dmTempPath c) dmTempPath)
        simp only [countCreates, List.countP_cons] at this ⊢
        simp only [createsAt]
        rw [this]
        have hne : (dmTempPath == dmOutputPath) = false := by decide
        simp [hne]

theorem dmLoop_temp_absent (world : String → Outcome) (urls : List String)
    (fs : FS) (h : urls ≠ [] ∨ fsExists fs dmTempPath = false) :
    fsExists (dmLoop world urls fs).fs dmTempPath = false := by
  have hne : dmTempPath ≠ dmOutputPath := by decide
  induction urls generalizing fs with
  | nil =>
    rcases h with h | h
    · exact absurd rfl h
    · simpa [dmLoop] using h
  | cons url rest ih =>
    rcases hw : world url with _ | c
    · simp only [dmLoop, hw]
      by_cases he : fsExists fs dmTempPath
      · simp only [he, if_true]
        exact ih (fsRemove fs dmTempPath)
          (Or.inr (fsExists_fsRemove_self fs dmTempPath))
      · simp only [he, if_false]
        exact ih fs (Or.inr (by simpa using he))
    · by_cases hc : 500000 < c.length
      · simp only [dmLoop, hw]
        rw [if_pos (by omega)]
        simp only []
        rw [fsExists_fsWrite_ne _ _ _ _ hne]
        exact fsExists_fsRemove_self _ dmTempPath
      · simp only [dmLoop, hw]
        rw [if_neg (by omega)]
        exact ih (fsRemove (fsWrite fs dmTempPath c) dmTempPath)
          (Or.inr (fsExists_fsRemove_self _ dmTempPath))

theorem gsLoop_failure_blind (w1 w2 : String → GsOutcome) (urls : List String)
    (fs : FS)
    (h : ∀ u, w1 u = w2 u ∨ (gsFails (w1 u) = true ∧ gsFails (w2 u) = true)) :
    gsLoop w1 urls fs = gsLoop w2 urls fs := by
  induction urls generalizing fs with
  | nil => rfl
  | cons url rest ih =>
    rcases h url with heq | ⟨hf1, hf2⟩
    · rcases hw2 : w2 url with code | _ | c
      · have hw1 : w1 url = GsOutcome.httpError code := heq.trans hw2
        simp only [gsLoop, hw1, hw2]
        rw [ih fs]
      · have hw1 : w1 url = GsOutcome.otherError := heq.trans hw2
        simp only [gsLoop, hw1, hw2]
        rw [ih fs]
      · have hw1 : w1 url = GsOutcome.payload c := heq.trans hw2
        simp only [gsLoop, hw1, hw2]
        by_cases h1 : c.length < 100
        · rw [if_pos h1, if_pos h1, ih fs]
        · by_cases h2 : 500000 < c.length
          · rw [if_neg h1, if_neg h1, if_pos (by omega), if_pos (by omega)]
          · rw [if_neg h1, if_neg h1, if_neg (by omega), if_neg (by omega), ih fs]
    · rcases hw1 : w1 url with code1 | _ | c1
      · rcases hw2 : w2 url with code2 | _ | c2
        · simp only [gsLoop, hw1, hw2]; rw [ih fs]
        · simp only [gsLoop, hw1, hw2]; rw [ih fs]
        · rw [hw2, gsFails] at hf2; exact absurd hf2 (by simp)
      · rcases hw2 : w2 url with code2 | _ | c2
        · simp only [gsLoop, hw1, hw2]; rw [ih fs]
        · simp only [gsLoop, hw1, hw2]; rw [ih fs]
        · rw [hw2, gsFails] at hf2; exact absurd hf2 (by simp)
      · rw [hw1, gsFails] at hf1; exact absurd hf1 (by simp)

theorem smLoop_cons_accept (world : String → Outcome) (url name : String)
    (rest : List (String × String)) (fs : FS) (c : Bytes)
    (hw : world url = Outcome.payload c) (hc : 50000 < c.length) :
    smLoop world ((url, name) :: rest) fs =
      ⟨true, (smLoop world rest (fsWrite fs (smOut name) c)).fs,
       url :: (smLoop world rest (fsWrite fs (smOut name) c)).attempts,
       FsEv.write (smOut name) c ::
         (smLoop world rest (fsWrite fs (smOut name) c)).trace⟩ := by
  simp only [smLoop, hw]
  rw [if_pos (by omega)]

theorem takeThrough_eq_self (p : α → Bool) (l : List α)
    (h : ∀ a ∈ l, p a = false) : takeThrough p l = l := by
  induction l with
  | nil => rfl
  | cons a l ih =>
    have ha := h a (List.mem_cons_self a l)
    simp only [takeThrough, ha, Bool.false_eq_true, if_false]
    rw [ih (fun b hb => h b (List.mem_cons_of_mem a hb))]

theorem fsWrite_fresh_length (fs : FS) (p : String) (c : Bytes)
    (h : fsExists fs p = false) :
    (fsWrite fs p c).length = fs.length + 1 := by
  rw [fsWrite, fsRemove_of_not_exists fs p h]
  rfl

theorem smLoop_no_move (world : String → Outcome)
    (models : List (String × String)) (fs : FS) :
    ∀ ev ∈ (smLoop world models fs).trace, isMove ev = false := by
  induction models generalizing fs with
  | nil => intro ev hev; exact absurd hev (List.not_mem_nil ev)
  | cons m rest ih =>
    obtain ⟨url, name⟩ := m
    intro ev hev
    rcases hw : world url with _ | c
    · simp only [smLoop, hw] at hev
      exact ih fs ev hev
    · by_cases hc : 50000 < c.length
      · simp only [smLoop, hw] at hev
        rw [if_pos (by omega)] at hev
        simp only [List.mem_cons] at hev
        rcases hev with rfl | hev
        · rfl
        · exact ih _ ev hev
      · simp only [smLoop, hw] at hev
        rw [if_neg (by omega)] at hev
        simp only [List.mem_cons] at hev
        rcases hev with rfl | hev
        · rfl
        · rcases hev with rfl | hev
          · rfl
          · exact ih _ ev hev

theorem bigPayload_length : bigPayload.length = 500001 := by
  simp only [bigPayload]
  rw [List.length_replicate]

theorem smLoop_allBig :
    (smLoop cwBig smModels []).success = true ∧
    (smLoop cwBig smModels []).fs.length = 3 := by
  have hbig : 50000 < bigPayload.length := by
    rw [bigPayload_length]; omega
  have hfs : ∀ (url name : String) (rest : List (String × String)) (fs : FS),
      (smLoop cwBig ((url, name) :: rest) fs).fs =
        (smLoop cwBig rest (fsWrite fs (smOut name) bigPayload)).fs := by
    intro url name rest fs
    rw [smLoop_cons_accept cwBig url name rest fs bigPayload rfl hbig]
  constructor
  · rw [smLoop_success]
    apply List.any_eq_true.mpr
    refine ⟨("https://storage.googleapis.com/mediapipe-models/face_landmarker/face_landmarker/float16/1/face_landmarker.task",
             "face_landmarker.task"), ?_, ?_⟩
    · simp [smModels]
    · simp only [smAccepted, cwBig]
      simpa using hbig
  · simp only [smModels]
    rw [hfs, hfs, hfs]
    simp only [smLoop]
    have hf1 : fsExists ([] : FS) (smOut "face_landmarker.task") = false := rfl
    have hf2 : fsExists (fsWrite [] (smOut "face_landmarker.task") bigPayload)
        (smOut "face_detector.tflite") = false := by
      rw [fsExists_fsWrite_ne _ _ _ _ (by decide)]
      rfl
    have hf3 : fsExists (fsWrite (fsWrite [] (smOut "face_landmarker.task") bigPayload)
          (smOut "face_detector.tflite") bigPayload)
        (smOut "mobilenet_v2_feature_vector.tflite") = false := by
      rw [fsExists_fsWrite_ne _ _ _ _ (by decide),
          fsExists_fsWrite_ne _ _ _ _ (by decide)]
      rfl
    rw [fsWrite_fresh_length _ _ _ hf3, fsWrite_fresh_length _ _ _ hf2,
        fsWrite_fresh_length _ _ _ hf1]
    rfl

/-- Claim C7: for every run of each script, the process exit status is 0
exactly when the fetch succeeded, and the non-zero status 1 exactly when
every source was exhausted without an accepted payload. -/
theorem C7_exit_status (wd : String → Outcome) (wg : String → GsOutcome)
    (ws : String → Outcome) (fs : FS) :
    ((dm_main wd fs = 0) ↔ (download_model wd fs).success = true) ∧
    ((dm_main wd fs = 1) ↔ dmUrls.any (dmAccepted wd) = false) ∧
    ((gs_main wg fs = 0) ↔ (search_and_download wg fs).success = true) ∧
    ((gs_main wg fs = 1) ↔ gsUrls.any (gsAccepted wg) = false) ∧
    ((sm_main ws fs = 0) ↔ (search_model_run ws fs).success = true) ∧
    ((sm_main ws fs = 1) ↔ smModels.any (smAccepted ws) = false) := by
  have hds : (download_model wd fs).success = (dmLoop wd dmUrls fs).success := rfl
  have hgs : (search_and_download wg fs).success = (gsLoop wg gsUrls fs).success := rfl
  have hss : (search_model_run ws fs).success = (smLoop ws smModels fs).success := rfl
  have hd := dmLoop_success wd dmUrls fs
  have hg := gsLoop_success wg gsUrls fs
  have hs := smLoop_success ws smModels fs
  refine ⟨?_, ?_, ?_, ?_, ?_, ?_⟩
  · cases h : (dmLoop wd dmUrls fs).success <;> simp [dm_main, hds, h]
  · rw [← hd]
    cases h : (dmLoop wd dmUrls fs).success <;> simp [dm_main, hds, h]
  · cases h : (gsLoop wg gsUrls fs).success <;> simp [gs_main, hgs, h]
  · rw [← hg]
    cases h : (gsLoop wg gsUrls fs).success <;> simp [gs_main, hgs, h]
  · cases h : (smLoop ws smModels fs).success <;> simp [sm_main, hss, h]
  · rw [← hs]
    cases h : (smLoop ws smModels fs).success <;> simp [sm_main, hss, h]

/-- Claim C10: whenever `download_model` returns — with success or failure,
whatever the network did and whatever was on disk beforehand — the fixed
temporary path `temp_model.tflite` no longer exists: on acceptance it was
moved to the destination, on rejection removed, and on an exception removed
if present. -/
theorem C10_temp_removed (world : String → Outcome) (fs : FS) :
    fsExists (download_model world fs).fs dmTempPath = false := by
  have h : (download_model world fs).fs = (dmLoop world dmUrls fs).fs := rfl
  rw [h]
  exact dmLoop_temp_absent world dmUrls fs (Or.inl (by simp [dmUrls]))

/-- Claim C5 counterexample: the run of the `download_model` source loop on
an empty source list returns the very same failure value (`False`) that an
exhausted non-empty run returns — there is no distinct `NoSourcesAvailable`
result in the code. -/
theorem C5_counterexample :
    (dmLoop cwFail [] []).success = (dmLoop cwFail ["u"] []).success ∧
    (dmLoop cwFail [] []).success = false ∧
    (dmLoop cwFail ["u"] []).success = false := by
  refine ⟨rfl, rfl, rfl⟩

/-- Claim C5 (amended): a call with an empty source list immediately
returns the plain failure result `False` (exit code 1) — the same value as
exhaustion, not a distinct `NoSourcesAvailable` — performs no retrieval
attempt, touches no file, and no exception escapes (the loop returns
normally). -/
theorem C5_empty_sources (world : String → Outcome) (fs : FS) :
    dmLoop world [] fs = ⟨false, fs, [], []⟩ ∧
    (dmLoop world [] fs).attempts = [] ∧
    (∀ w2 : String → Outcome, ∀ urls2 : List String,
      (∀ u ∈ urls2, dmAccepted w2 u = false) →
      (dmLoop world [] fs).success = (dmLoop w2 urls2 fs).success) := by
  refine ⟨rfl, rfl, ?_⟩
  intro w2 urls2 h
  have : urls2.any (dmAccepted w2) = false := by
    rw [List.any_eq_false]
    intro u hu
    simp [h u hu]
  rw [dmLoop_success world [] fs, dmLoop_success w2 urls2 fs, this]
  rfl

/-- Claim C5 witness: the amended statement instantiated with the
all-failing world, the empty list and the exhausted singleton list. -/
theorem C5_empty_sources_witness :
    dmLoop cwFail [] [] = ⟨false, [], [], []⟩ ∧
    (dmLoop cwFail [] []).success = (dmLoop cwFail ["x"] []).success := by
  obtain ⟨h1, _, h3⟩ := C5_empty_sources cwFail []
  exact ⟨h1, h3 cwFail ["x"] (fun u hu => rfl)⟩

/-- Claim C6: the acceptance policy is strict in all three scripts — a
single-source run succeeds exactly when the retrieved payload is strictly
larger than the configured threshold (500000 bytes in `download_model.py`
and `github_search.py`, 50000 bytes in `search_model.py`), so a payload of
exactly the threshold size is rejected. -/
theorem C6_strict_threshold (wd : String → Outcome) (wg : String → GsOutcome)
    (u name : String) (fs : FS) (c : Bytes)
    (hd : wd u = Outcome.payload c) (hg : wg u = GsOutcome.payload c) :
    ((dmLoop wd [u] fs).success = true ↔ 500000 < c.length) ∧
    ((gsLoop wg [u] fs).success = true ↔ 500000 < c.length) ∧
    ((smLoop wd [(u, name)] fs).success = true ↔ 50000 < c.length) := by
  refine ⟨?_, ?_, ?_⟩
  · rw [dmLoop_success]
    simp [dmAccepted, hd]
  · rw [gsLoop_success]
    simp [gsAccepted, hg]
  · rw [smLoop_success]
    simp [smAccepted, hd]

/-- Claim C6 witness: the strict-threshold characterization instantiated
with a concrete three-byte payload on a single concrete source. -/
theorem C6_strict_threshold_witness :
    cwTiny "u" = Outcome.payload tinyPayload ∧
    (((dmLoop cwTiny ["u"] []).success = true ↔ 500000 < tinyPayload.length) ∧
     ((gsLoop cgTiny ["u"] []).success = true ↔ 500000 < tinyPayload.length) ∧
     ((smLoop cwTiny [("u", "m.tflite")] []).success = true ↔
        50000 < tinyPayload.length)) :=
  ⟨rfl, C6_strict_threshold cwTiny cgTiny "u" "m.tflite" [] tinyPayload rfl rfl⟩

/-- Claim C9: a "not found" HTTP status is handled identically to any other
retrieval failure.  Replacing failure outcomes (404 or any other HTTP code,
or a non-HTTP exception) by other failure outcomes leaves the whole
`search_and_download` run — returned flag, filesystem, attempted sources
and trace — unchanged, and when every source fails the iteration still
visits every source (the failed attempt is recorded and the loop continues,
with no early termination). -/
theorem C9_notfound_ordinary_failure (w1 w2 : String → GsOutcome)
    (urls : List String) (fs : FS)
    (h : ∀ u, w1 u = w2 u ∨ (gsFails (w1 u) = true ∧ gsFails (w2 u) = true)) :
    gsLoop w1 urls fs = gsLoop w2 urls fs ∧
    ((∀ u ∈ urls, gsAccepted w1 u = false) →
      (gsLoop w1 urls fs).attempts = urls) := by
  refine ⟨gsLoop_failure_blind w1 w2 urls fs h, ?_⟩
  intro hall
  rw [gsLoop_attempts]
  exact takeThrough_eq_self _ _ hall

/-- Claim C9 witness: a world answering 404 everywhere and a world raising
a generic exception everywhere produce identical two-source runs, visiting
both sources. -/
theorem C9_notfound_ordinary_failure_witness :
    gsLoop cg404 ["a", "b"] [] = gsLoop cgOther ["a", "b"] [] ∧
    (gsLoop cg404 ["a", "b"] []).attempts = ["a", "b"] := by
  have h := C9_notfound_ordinary_failure cg404 cgOther ["a", "b"] []
    (fun u => Or.inr ⟨rfl, rfl⟩)
  exact ⟨h.1, h.2 (fun u hu => rfl)⟩

/-- Claim C3: when every source fails or every retrieved payload is
rejected, `download_model` returns the overall failure `False` (the
spec's `AllSourcesExhausted`), and — starting from a filesystem holding
neither the destination nor a stale temporary file — afterwards no
destination file exists and no temporary file is left; moreover on any
non-empty source list a stray pre-existing temporary file is cleaned up;
`search_and_download` likewise returns `False` and leaves the filesystem
untouched. -/
theorem C3_exhausted_clean (wd : String → Outcome) (wg : String → GsOutcome)
    (urls gurls : List String) (fs : FS)
    (hall : ∀ u ∈ urls, dmAccepted wd u = false)
    (hgall : ∀ u ∈ gurls, gsAccepted wg u = false)
    (hdest : fsExists fs dmOutputPath = false)
    (htemp : fsExists fs dmTempPath = false) :
    (dmLoop wd urls fs).success = false ∧
    fsExists (dmLoop wd urls fs).fs dmOutputPath = false ∧
    fsExists (dmLoop wd urls fs).fs dmTempPath = false ∧
    (∀ fs2 : FS, urls ≠ [] →
      fsExists (dmLoop wd urls fs2).fs dmTempPath = false) ∧
    (gsLoop wg gurls fs).success = false ∧
    (gsLoop wg gurls fs).fs = fs ∧
    fsExists (gsLoop wg gurls fs).fs gsOutputPath = false := by
  have hany : urls.any (dmAccepted wd) = false := by
    rw [List.any_eq_false]; intro u hu; simp [hall u hu]
  have hgany : gurls.any (gsAccepted wg) = false := by
    rw [List.any_eq_false]; intro u hu; simp [hgall u hu]
  have hfs := dmLoop_fs wd urls fs htemp
  rw [dmFirstPayload_eq_none wd urls hall] at hfs
  have hgfs := gsLoop_fs wg gurls fs
  rw [gsFirstPayload_eq_none wg gurls hgall] at hgfs
  refine ⟨?_, ?_, ?_, ?_, ?_, hgfs, ?_⟩
  · rw [dmLoop_success, hany]
  · rw [hfs]; exact hdest
  · rw [hfs]; exact htemp
  · intro fs2 hne
    exact dmLoop_temp_absent wd urls fs2 (Or.inl hne)
  · rw [gsLoop_success, hgany]
  · rw [hgfs]
    exact hdest

/-- Claim C3 witness: with every retrieval failing, two-source
`download_model` and one-source `search_and_download` runs on an empty
filesystem exhaust their sources and leave no file. -/
theorem C3_exhausted_clean_witness :
    (dmLoop cwFail ["a", "b"] []).success = false ∧
    fsExists (dmLoop cwFail ["a", "b"] []).fs dmOutputPath = false ∧
    fsExists (dmLoop cwFail ["a", "b"] []).fs dmTempPath = false ∧
    (gsLoop cgOther ["a"] []).success = false ∧
    fsExists (gsLoop cgOther ["a"] []).fs gsOutputPath = false := by
  have h := C3_exhausted_clean cwFail cgOther ["a", "b"] ["a"] []
    (fun u hu => rfl) (fun u hu => rfl) rfl rfl
  exact ⟨h.1, h.2.1, h.2.2.1, h.2.2.2.2.1, h.2.2.2.2.2.2⟩

/-- Claim C4: whenever some source of the list yields a payload passing
the acceptance policy, `download_model` returns success and the destination
file holds exactly the first accepted payload, so the destination's byte
length equals the accepted payload's byte length; likewise for
`search_and_download`. -/
theorem C4_success_destination_length (wd : String → Outcome)
    (wg : String → GsOutcome) (urls gurls : List String) (fs : FS)
    (hacc : ∃ u ∈ urls, dmAccepted wd u = true)
    (hgacc : ∃ u ∈ gurls, gsAccepted wg u = true)
    (htemp : fsExists fs dmTempPath = false) :
    ((dmLoop wd urls fs).success = true ∧
     ∃ c, dmFirstPayload wd urls = some c ∧
       (∃ u ∈ urls, wd u = Outcome.payload c) ∧
       fsLookup (dmLoop wd urls fs).fs dmOutputPath = some c ∧
       (fsLookup (dmLoop wd urls fs).fs dmOutputPath).map List.length =
         some c.length) ∧
    ((gsLoop wg gurls fs).success = true ∧
     ∃ c, gsFirstPayload wg gurls = some c ∧
       (∃ u ∈ gurls, wg u = GsOutcome.payload c) ∧
       fsLookup (gsLoop wg gurls fs).fs gsOutputPath = some c ∧
       (fsLookup (gsLoop wg gurls fs).fs gsOutputPath).map List.length =
         some c.length) := by
  obtain ⟨c, hc1, hc2, u, hu, hw⟩ := dmFirstPayload_of_any wd urls hacc
  obtain ⟨d, hd1, hd2, v, hv, hw2⟩ := gsFirstPayload_of_any wg gurls hgacc
  have hfs := dmLoop_fs wd urls fs htemp
  rw [hc1] at hfs
  have hfs2 : (dmLoop wd urls fs).fs = fsWrite fs dmOutputPath c := hfs
  have hgfs := gsLoop_fs wg gurls fs
  rw [hd1] at hgfs
  have hgfs2 : (gsLoop wg gurls fs).fs = fsWrite fs gsOutputPath d := hgfs
  refine ⟨⟨?_, c, hc1, ⟨u, hu, hw⟩, ?_, ?_⟩,
          ⟨?_, d, hd1, ⟨v, hv, hw2⟩, ?_, ?_⟩⟩
  · rw [dmLoop_success, List.any_eq_true]
    exact ⟨u, hu, by simp [dmAccepted, hw, hc2]⟩
  · rw [hfs2]
    exact fsLookup_fsWrite_self fs dmOutputPath c
  · rw [hfs2, fsLookup_fsWrite_self]
    rfl
  · rw [gsLoop_success, List.any_eq_true]
    exact ⟨v, hv, by simp [gsAccepted, hw2, hd2]⟩
  · rw [hgfs2]
    exact fsLookup_fsWrite_self fs gsOutputPath d
  · rw [hgfs2, fsLookup_fsWrite_self]
    rfl

/-- Claim C4 witness: both fetchers instantiated on a single accepting
source delivering a payload one byte above the threshold. -/
theorem C4_success_destination_length_witness :
    ((dmLoop cwBig ["a"] []).success = true ∧
     ∃ c, dmFirstPayload cwBig ["a"] = some c ∧
       (∃ u ∈ ["a"], cwBig u = Outcome.payload c) ∧
       fsLookup (dmLoop cwBig ["a"] []).fs dmOutputPath = some c ∧
       (fsLookup (dmLoop cwBig ["a"] []).fs dmOutputPath).map List.length =
         some c.length) ∧
    ((gsLoop cgBig ["b"] []).success = true ∧
     ∃ c, gsFirstPayload cgBig ["b"] = some c ∧
       (∃ u ∈ ["b"], cgBig u = GsOutcome.payload c) ∧
       fsLookup (gsLoop cgBig ["b"] []).fs gsOutputPath = some c ∧
       (fsLookup (gsLoop cgBig ["b"] []).fs gsOutputPath).map List.length =
         some c.length) := by
  refine C4_success_destination_length cwBig cgBig ["a"] ["b"] []
    ⟨"a", ?_, ?_⟩ ⟨"b", ?_, ?_⟩ rfl
  · simp
  · have hw : cwBig "a" = Outcome.payload bigPayload := rfl
    simp [dmAccepted, hw, bigPayload_length]
  · simp
  · have hw : cgBig "b" = GsOutcome.payload bigPayload := rfl
    simp [gsAccepted, hw, bigPayload_length]

theorem search_model_run_attempts (world : String → Outcome) (fs : FS) :
    (search_model_run world fs).attempts = (smLoop world smModels fs).attempts := rfl

theorem search_model_run_success (world : String → Outcome) (fs : FS) :
    (search_model_run world fs).success = (smLoop world smModels fs).success := rfl

theorem search_model_run_fs (world : String → Outcome) (fs : FS) :
    (search_model_run world fs).fs = (smLoop world smModels fs).fs := rfl

/-- Claim C1 counterexample: in the `search_model.py` loop, with every
retrieval yielding an accepted payload, the first source attempted is
accepted and yet all three sources are attempted — acceptance does not
short-circuit the iteration, so sources after the accepted one are still
attempted. -/
theorem C1_counterexample :
    smAccepted cwBig
      ("https://storage.googleapis.com/mediapipe-models/face_landmarker/face_landmarker/float16/1/face_landmarker.task",
       "face_landmarker.task") = true ∧
    (search_model_run cwBig []).success = true ∧
    (search_model_run cwBig []).attempts = smModels.map Prod.fst ∧
    (search_model_run cwBig []).attempts.length = 3 := by
  have hbig : 50000 < bigPayload.length := by rw [bigPayload_length]; omega
  have hatt := search_model_run_attempts cwBig []
  refine ⟨?_, ?_, ?_, ?_⟩
  · simp only [smAccepted, cwBig]
    simpa using hbig
  · rw [search_model_run_success]
    exact smLoop_allBig.1
  · rw [hatt, smLoop_attempts]
  · rw [hatt, smLoop_attempts]
    simp [smModels]

/-- Claim C1 (amended): in `download_model` the sources are attempted
strictly in list order with at most one retrieval attempt per source (the
attempt list is a prefix of the source list), the call returns success
exactly when some source is accepted, and when position `i` holds the
first accepted source the attempts stop there — sources `i+1..n` are never
attempted; the `search_model.py` loop, by contrast, attempts every source
regardless of earlier acceptances. -/
theorem C1_order_shortcircuit (world : String → Outcome) (urls : List String)
    (fs : FS) :
    (∃ k, (dmLoop world urls fs).attempts = urls.take k) ∧
    ((dmLoop world urls fs).success = true ↔
      ∃ u ∈ urls, dmAccepted world u = true) ∧
    (∀ i, ∀ h : i < urls.length,
      (∀ j, ∀ hj : j < i,
        dmAccepted world (urls.get ⟨j, Nat.lt_trans hj h⟩) = false) →
      dmAccepted world (urls.get ⟨i, h⟩) = true →
      (dmLoop world urls fs).attempts = urls.take (i + 1) ∧
      (dmLoop world urls fs).success = true) ∧
    (∀ ws : String → Outcome, ∀ fs2 : FS,
      (smLoop ws smModels fs2).attempts = smModels.map Prod.fst) := by
  refine ⟨?_, ?_, ?_, ?_⟩
  · rw [dmLoop_attempts]
    exact takeThrough_is_take_prefix _ urls
  · rw [dmLoop_success, List.any_eq_true]
  · intro i h hfirst hacc
    constructor
    · rw [dmLoop_attempts]
      exact takeThrough_eq_take_of_first _ urls i h hfirst hacc
    · rw [dmLoop_success, List.any_eq_true]
      exact ⟨urls.get ⟨i, h⟩, List.get_mem urls i h, hacc⟩
  · intro ws fs2
    exact smLoop_attempts ws smModels fs2

/-- Claim C1 witness: with the first source failing and the second
accepted, the `download_model` loop attempts exactly the first two of
three sources and succeeds. -/
theorem C1_order_shortcircuit_witness :
    (dmLoop cwSecond ["a", "b", "c"] []).attempts = ["a", "b"] ∧
    (dmLoop cwSecond ["a", "b", "c"] []).success = true := by
  have h := (C1_order_shortcircuit cwSecond ["a", "b", "c"] []).2.2.1 1
    (by decide)
    (fun j hj => by
      have hj0 : j = 0 := by omega
      subst hj0
      show dmAccepted cwSecond "a" = false
      decide)
    (by
      have hw : cwSecond "b" = Outcome.payload bigPayload := rfl
      simp [dmAccepted, hw, bigPayload_length])
  exact ⟨h.1, h.2⟩

/-- Claim C2 counterexample: in the `github_search.py` loop an accepted
payload is written directly to the destination path: the successful run's
only filesystem event is a direct whole-file write of the destination —
there is no temporary location and no atomic move. -/
theorem C2_counterexample :
    (gsLoop cgBig ["u"] []).success = true ∧
    (gsLoop cgBig ["u"] []).trace = [FsEv.write gsOutputPath bigPayload] ∧
    noDirectWrite (gsLoop cgBig ["u"] []).trace gsOutputPath = false := by
  have hw : cgBig "u" = GsOutcome.payload bigPayload := rfl
  have hacc : gsAccepted cgBig "u" = true := by
    simp [gsAccepted, hw, bigPayload_length]
  have hfp : gsFirstPayload cgBig ["u"] = some bigPayload := by
    simp only [gsFirstPayload, hw]
    rw [if_pos (by rw [bigPayload_length]; omega)]
  have htr : (gsLoop cgBig ["u"] []).trace =
      [FsEv.write gsOutputPath bigPayload] := by
    have h := gsLoop_trace cgBig ["u"] []
    rw [hfp] at h
    exact h
  refine ⟨?_, htr, ?_⟩
  · rw [gsLoop_success]
    simp [hacc]
  · rw [htr]
    simp [noDirectWrite]

/-- Claim C2 (amended): in `download_model` the destination file is never
the target of a direct write — it comes into existence only through the
atomic move of the fully written temporary file, exactly once on a
successful run and never on a failed one; in `github_search.py` an accepted
payload is instead written directly to the destination path (the successful
run's trace is a single direct write), and the `search_model.py` loop
likewise performs direct writes with no move at all. -/
theorem C2_temp_then_move (wd : String → Outcome) (urls : List String)
    (fs : FS) :
    noDirectWrite (dmLoop wd urls fs).trace dmOutputPath = true ∧
    countCreates (dmLoop wd urls fs).trace dmOutputPath =
      (if (dmLoop wd urls fs).success then 1 else 0) ∧
    (∀ wg : String → GsOutcome, ∀ gurls : List String, ∀ fs2 : FS,
      (gsLoop wg gurls fs2).success = true →
      ∃ c, (gsLoop wg gurls fs2).trace = [FsEv.write gsOutputPath c]) ∧
    (∀ ws : String → Outcome, ∀ models : List (String × String), ∀ fs2 : FS,
      ∀ ev ∈ (smLoop ws models fs2).trace, isMove ev = false) := by
  refine ⟨dmLoop_noDirectWrite wd urls fs, dmLoop_countCreates wd urls fs,
          ?_, smLoop_no_move⟩
  intro wg gurls fs2 hsucc
  rw [gsLoop_success] at hsucc
  obtain ⟨c, hc1, _, _⟩ :=
    gsFirstPayload_of_any wg gurls (List.any_eq_true.mp hsucc)
  have htr := gsLoop_trace wg gurls fs2
  rw [hc1] at htr
  exact ⟨c, htr⟩

/-- Claim C2 witness: the amended statement's conditional part instantiated
on a single accepting `github_search` source. -/
theorem C2_temp_then_move_witness :
    noDirectWrite (dmLoop cwBig ["a"] []).trace dmOutputPath = true ∧
    (∃ c, (gsLoop cgBig ["v"] []).trace = [FsEv.write gsOutputPath c]) := by
  have h := C2_temp_then_move cwBig ["a"] []
  refine ⟨h.1, h.2.2.1 cgBig ["v"] [] ?_⟩
  rw [gsLoop_success]
  have hw : cgBig "v" = GsOutcome.payload bigPayload := rfl
  simp [gsAccepted, hw, bigPayload_length]

/-- Claim C8 counterexample: a successful `search_model.py` run can
finalize more than one output file: with all three retrievals accepted the
run exits successfully with three destination files on an initially empty
filesystem. -/
theorem C8_counterexample :
    (search_model_run cwBig []).success = true ∧
    (search_model_run cwBig []).fs.length = 3 := by
  rw [search_model_run_success, search_model_run_fs]
  exact ⟨smLoop_allBig.1, smLoop_allBig.2⟩

/-- Claim C8 (amended): `download_model` and `search_and_download` finalize
the destination exactly once per successful run and never on a failed run,
and each script creates the destination's parent directory tree
(idempotently, `exist_ok`) before attempting any source; the
`search_model.py` loop instead finalizes one output file per accepted
source, so a single successful run can write more than one output file. -/
theorem C8_one_destination (wd : String → Outcome) (wg : String → GsOutcome)
    (urls gurls : List String) (fs : FS) :
    countCreates (dmLoop wd urls fs).trace dmOutputPath =
      (if (dmLoop wd urls fs).success then 1 else 0) ∧
    countCreates (gsLoop wg gurls fs).trace gsOutputPath =
      (if (gsLoop wg gurls fs).success then 1 else 0) ∧
    (download_model wd fs).trace.head? =
      some (FsEv.mkdirs "app/src/main/assets") ∧
    (search_and_download wg fs).trace.head? =
      some (FsEv.mkdirs "app/src/main/assets") ∧
    (search_model_run wd fs).trace.head? = some (FsEv.mkdirs smAssetsDir) ∧
    (∃ ws : String → Outcome, (smLoop ws smModels []).success = true ∧
      2 ≤ (smLoop ws smModels []).fs.length) := by
  have hgs : countCreates (gsLoop wg gurls fs).trace gsOutputPath =
      (if (gsLoop wg gurls fs).success then 1 else 0) := by
    rcases hfp : gsFirstPayload wg gurls with _ | c
    · have htr : (gsLoop wg gurls fs).trace = [] := by
        have h := gsLoop_trace wg gurls fs
        rw [hfp] at h
        exact h
      cases hsucc : (gsLoop wg gurls fs).success
      · rw [htr]
        rfl
      · exfalso
        rw [gsLoop_success] at hsucc
        obtain ⟨c, hc1, _, _⟩ :=
          gsFirstPayload_of_any wg gurls (List.any_eq_true.mp hsucc)
        rw [hfp] at hc1
        exact Option.noConfusion hc1
    · have htr : (gsLoop wg gurls fs).trace = [FsEv.write gsOutputPath c] := by
        have h := gsLoop_trace wg gurls fs
        rw [hfp] at h
        exact h
      cases hsucc : (gsLoop wg gurls fs).success
      · exfalso
        rw [gsLoop_success] at hsucc
        have hall : ∀ u ∈ gurls, gsAccepted wg u = false := by
          intro u hu
          have := List.any_eq_false.mp hsucc u hu
          simpa using this
        have h0 := gsFirstPayload_eq_none wg gurls hall
        rw [hfp] at h0
        exact Option.noConfusion h0
      · rw [htr]
        simp [countCreates, List.countP_cons, createsAt]
  refine ⟨dmLoop_countCreates wd urls fs, hgs, rfl, rfl, rfl,
          cwBig, smLoop_allBig.1, ?_⟩
  rw [smLoop_allBig.2]
  omega
